import Mathlib

/-!
Shallow embedding of the buffer pool manager in
`src/src/storage/buffer_manager.cpp` (namespace `duckdb`).

Modelling conventions:
* Sequential semantics: locks (`manager_lock`, per-handle `lock`,
  `temp_handle_lock`) are no-ops for a single thread, and the double-checked
  re-reads in `Pin`, `ReAllocate` and `EvictBlocks` are kept literally (the
  state is re-fetched from the store after every call that may mutate it).
* Every operation returns `σ × Option α`.  `(s, some a)` is a normal return
  with result `a`; `(s, none)` means the operation raised (an exception such
  as `OutOfRangeException`, or a `D_ASSERT` failure, which aborts and hence
  also does not return successfully).  The state component of a raising
  return is the state at the raise point, so partial mutation before a
  `throw` is preserved.
* `shared_ptr<BlockHandle>` values are modelled as indices into a handle
  store `handles : Nat → Option BlockHandle`; a weak reference is an index
  whose lookup may be `none`.  No operation of the modelled public interface
  destroys a handle, so stored handles stay live.
* Machine integers (`idx_t`, `block_id_t`) are `Nat`.  The unsigned
  subtractions `current_memory -= memory_usage` and `current_memory -=
  extra_memory` are `Nat` truncated subtraction; in the states the theorems
  below quantify over they never underflow, so truncation agrees with the
  2^64 wrap-around of `idx_t`.
* File contents are byte lists; the 8-byte size header written by
  `WriteTemporaryBuffer` is an explicit little-endian encoding mod 2^64.
-/

/- Constants from the storage headers (`Storage::BLOCK_SIZE`,
`Storage::BLOCK_HEADER_SIZE`, `Storage::BLOCK_ALLOC_SIZE`, `MAXIMUM_BLOCK`).
The headers are not part of the given source slice; the values are the ones
the spec's constants section describes (fixed block payload size plus header,
and the threshold separating persistent from anonymous ids). -/

def BLOCK_SIZE : Nat := 262144

def BLOCK_HEADER_SIZE : Nat := 8

def BLOCK_ALLOC_SIZE : Nat := BLOCK_SIZE + BLOCK_HEADER_SIZE

def MAXIMUM_BLOCK : Nat := 4611686018427388000

inductive BlockState where
  | BLOCK_UNLOADED
  | BLOCK_LOADED
deriving DecidableEq

/-- Model of `FileBuffer` / `ManagedBuffer` / `Block`: an owned byte region
with its allocation size, the block id it belongs to and the
`can_destroy` flag carried by `ManagedBuffer`. -/
structure FileBuffer where
  size : Nat
  payload : List Nat
  id : Nat
  can_destroy : Bool
deriving DecidableEq

structure BlockHandle where
  readers : Nat
  block_id : Nat
  buffer : Option FileBuffer
  eviction_timestamp : Nat
  can_destroy : Bool
  state : BlockState
  memory_usage : Nat
deriving DecidableEq

structure BufferEvictionNode where
  handle : Nat
  timestamp : Nat
deriving DecidableEq

structure BufferManager where
  current_memory : Nat
  maximum_memory : Nat
  temp_directory : String
  temp_directory_handle : Bool
  blocks : Nat → Option Nat
  handles : Nat → Option BlockHandle
  next_handle : Nat
  queue : List BufferEvictionNode
  temporary_id : Nat
  temp_files : Nat → Option (List Nat)

/-- `BufferManager::BufferManager(db, tmp, maximum_memory)`. -/
def mkBufferManager (tmp : String) (maximum_memory : Nat) : BufferManager :=
  { current_memory := 0
    maximum_memory := maximum_memory
    temp_directory := tmp
    temp_directory_handle := false
    blocks := fun _ => none
    handles := fun _ => none
    next_handle := 0
    queue := []
    temporary_id := MAXIMUM_BLOCK
    temp_files := fun _ => none }

/-- Overwrite the handle stored at index `hid` (mutation of the shared
`BlockHandle` object). -/
def setHandle (m : BufferManager) (hid : Nat) (h : BlockHandle) : BufferManager :=
  { m with handles := fun k => if k = hid then some h else m.handles k }

/-- `BlockHandle::CanUnload` (lines 79-96). -/
def BlockHandle.CanUnload (h : BlockHandle) (m : BufferManager) : Bool :=
  if h.state = BlockState.BLOCK_UNLOADED then false
  else if 0 < h.readers then false
  else if MAXIMUM_BLOCK ≤ h.block_id ∧ h.can_destroy = false ∧ m.temp_directory = "" then false
  else true

/-- `BufferEvictionNode::CanUnload` (lines 107-113). -/
def BufferEvictionNode.CanUnload (node : BufferEvictionNode) (h : BlockHandle)
    (m : BufferManager) : Bool :=
  if node.timestamp ≠ h.eviction_timestamp then false
  else h.CanUnload m

/-- Little-endian byte encoding, `w` bytes (raw memory of an `idx_t` when
`w = 8`). -/
def encodeLE (w n : Nat) : List Nat :=
  match w with
  | 0 => []
  | w + 1 => n % 256 :: encodeLE w (n / 256)

def decodeLE (bs : List Nat) : Nat :=
  match bs with
  | [] => 0
  | b :: rest => b % 256 + 256 * decodeLE rest

/-- `BufferManager::RequireTemporaryDirectory` (lines 328-339): raises when no
temporary directory is configured; otherwise lazily materializes the
directory handle. -/
def RequireTemporaryDirectory (m : BufferManager) : BufferManager × Option Unit :=
  if m.temp_directory = "" then (m, none)
  else ({ m with temp_directory_handle := true }, some ())

/-- `BufferManager::WriteTemporaryBuffer` (lines 341-352): file layout is the
8-byte size header followed by the payload. -/
def WriteTemporaryBuffer (m : BufferManager) (buffer : FileBuffer) : BufferManager × Option Unit :=
  match RequireTemporaryDirectory m with
  | (m1, none) => (m1, none)
  | (m1, some _) =>
    if buffer.size < BLOCK_SIZE then (m1, none)
    else
      ({ m1 with temp_files := fun k =>
          if k = buffer.id then some (encodeLE 8 buffer.size ++ buffer.payload)
          else m1.temp_files k }, some ())

/-- `BufferManager::ReadTemporaryBuffer` (lines 354-368): read the size
header, then a payload of that many bytes. A missing or truncated file is a
file-system error (raise). -/
def ReadTemporaryBuffer (m : BufferManager) (id : Nat) : Option FileBuffer :=
  if m.temp_directory = "" then none
  else if m.temp_directory_handle = false then none
  else
    match m.temp_files id with
    | none => none
    | some bytes =>
      if bytes.length < 8 then none
      else
        let alloc_size := decodeLE (bytes.take 8)
        if bytes.length < 8 + alloc_size then none
        else some { size := alloc_size, payload := (bytes.drop 8).take alloc_size,
                    id := id, can_destroy := false }

/-- Modelled from the spec: the on-disk block manager collaborator
(`BlockManager::Read`, §6 external interfaces).  It fills a freshly
allocated block-sized buffer for a persistent id; the bytes themselves are
opaque to the buffer manager. -/
def blockManagerRead (block_id : Nat) : FileBuffer :=
  { size := BLOCK_SIZE, payload := [], id := block_id, can_destroy := false }

/-- `BlockHandle::Load` (lines 37-59).  Result value: `some tok` on normal
return, where `tok = none` is the `nullptr` token of the destroyable
anonymous path and `tok = some b` is a `BufferHandle` over buffer `b`. -/
def BlockHandle.Load (m : BufferManager) (hid : Nat) : BufferManager × Option (Option FileBuffer) :=
  match m.handles hid with
  | none => (m, none)
  | some h =>
    if h.state = BlockState.BLOCK_LOADED then
      match h.buffer with
      | none => (m, none)
      | some b => (m, some (some b))
    else
      let h1 := { h with state := BlockState.BLOCK_LOADED }
      if h1.block_id < MAXIMUM_BLOCK then
        let b := blockManagerRead h1.block_id
        (setHandle m hid { h1 with buffer := some b }, some (some b))
      else if h1.can_destroy then
        (setHandle m hid h1, some none)
      else
        match ReadTemporaryBuffer m h1.block_id with
        | none => (setHandle m hid h1, none)
        | some b =>
          (setHandle m hid { h1 with buffer := some b }, some (some b))

/-- `BlockHandle::Unload` (lines 61-77). -/
def BlockHandle.Unload (m : BufferManager) (hid : Nat) : BufferManager × Option Unit :=
  match m.handles hid with
  | none => (m, none)
  | some h =>
    if h.state = BlockState.BLOCK_UNLOADED then (m, some ())
    else if h.CanUnload m = false then (m, none)
    else if h.memory_usage < BLOCK_SIZE then (m, none)
    else
      let m1 := setHandle m hid { h with state := BlockState.BLOCK_UNLOADED }
      if MAXIMUM_BLOCK ≤ h.block_id ∧ h.can_destroy = false then
        match h.buffer with
        | none => (m1, none)
        | some b =>
          match WriteTemporaryBuffer m1 b with
          | (m2, none) => (m2, none)
          | (m2, some _) =>
            ({ setHandle m2 hid
                { h with state := BlockState.BLOCK_UNLOADED, buffer := none } with
               current_memory := m2.current_memory - h.memory_usage }, some ())
      else
        ({ setHandle m1 hid
            { h with state := BlockState.BLOCK_UNLOADED, buffer := none } with
           current_memory := m1.current_memory - h.memory_usage }, some ())

/-- The `while (current_memory > memory_limit)` loop of
`BufferManager::EvictBlocks` (lines 261-285), recursing on the queue.  The
two `CanUnload` checks of the source (before and after taking the handle
lock) coincide sequentially and are performed once. -/
def evictLoop (limit : Nat) : List BufferEvictionNode → BufferManager → BufferManager × Option Bool
  | [], m =>
    if m.current_memory ≤ limit then ({ m with queue := [] }, some true)
    else ({ m with queue := [] }, some false)
  | node :: rest, m =>
    if m.current_memory ≤ limit then ({ m with queue := node :: rest }, some true)
    else
      match m.handles node.handle with
      | none => evictLoop limit rest m
      | some h =>
        if node.CanUnload h m = false then evictLoop limit rest m
        else
          match BlockHandle.Unload m node.handle with
          | (m1, none) => (m1, none)
          | (m1, some _) => evictLoop limit rest m1

/-- `BufferManager::EvictBlocks` (lines 258-287): reserve `extra_memory`,
drain the queue while over `memory_limit`, roll the reservation back when the
queue empties first. -/
def EvictBlocks (m : BufferManager) (extra_memory memory_limit : Nat) :
    BufferManager × Option Bool :=
  match evictLoop memory_limit m.queue
      { m with current_memory := m.current_memory + extra_memory } with
  | (m1, none) => (m1, none)
  | (m1, some true) => (m1, some true)
  | (m1, some false) =>
    ({ m1 with current_memory := m1.current_memory - extra_memory }, some false)

/-- The fresh-handle path of `BufferManager::RegisterBlock` (lines 169-173). -/
def registerFresh (m : BufferManager) (block_id : Nat) : BufferManager × Nat :=
  let hid := m.next_handle
  let h : BlockHandle :=
    { readers := 0, block_id := block_id, buffer := none, eviction_timestamp := 0,
      can_destroy := false, state := BlockState.BLOCK_UNLOADED,
      memory_usage := BLOCK_ALLOC_SIZE }
  ({ setHandle m hid h with
      blocks := fun k => if k = block_id then some hid else m.blocks k,
      next_handle := hid + 1 }, hid)

/-- `BufferManager::RegisterBlock` (lines 157-174). -/
def RegisterBlock (m : BufferManager) (block_id : Nat) : BufferManager × Nat :=
  match m.blocks block_id with
  | some hid =>
    match m.handles hid with
    | some _ => (m, hid)
    | none => registerFresh m block_id
  | none => registerFresh m block_id

/-- `BufferManager::RegisterMemory` (lines 176-189). -/
def RegisterMemory (m : BufferManager) (alloc_size : Nat) (can_destroy : Bool) :
    BufferManager × Option Nat :=
  match EvictBlocks m (alloc_size + BLOCK_HEADER_SIZE) m.maximum_memory with
  | (m1, none) => (m1, none)
  | (m1, some false) => (m1, none)
  | (m1, some true) =>
    let temp_id := m1.temporary_id + 1
    let m2 := { m1 with temporary_id := temp_id }
    if alloc_size < BLOCK_SIZE then (m2, none)
    else
      let buffer : FileBuffer :=
        { size := alloc_size, payload := List.replicate alloc_size 0,
          id := temp_id, can_destroy := can_destroy }
      let hid := m2.next_handle
      let h : BlockHandle :=
        { readers := 0, block_id := temp_id, buffer := some buffer,
          eviction_timestamp := 0, can_destroy := can_destroy,
          state := BlockState.BLOCK_LOADED,
          memory_usage := alloc_size + BLOCK_HEADER_SIZE }
      ({ setHandle m2 hid h with next_handle := hid + 1 }, some hid)

/-- `BufferManager::Pin` (lines 216-245). -/
def Pin (m : BufferManager) (hid : Nat) : BufferManager × Option (Option FileBuffer) :=
  match m.handles hid with
  | none => (m, none)
  | some h =>
    if h.state = BlockState.BLOCK_LOADED then
      BlockHandle.Load (setHandle m hid { h with readers := h.readers + 1 }) hid
    else
      let required_memory := h.memory_usage
      match EvictBlocks m required_memory m.maximum_memory with
      | (m1, none) => (m1, none)
      | (m1, some false) => (m1, none)
      | (m1, some true) =>
        match m1.handles hid with
        | none => (m1, none)
        | some h1 =>
          if h1.state = BlockState.BLOCK_LOADED then
            BlockHandle.Load (setHandle m1 hid { h1 with readers := h1.readers + 1 }) hid
          else if h1.readers ≠ 0 then (m1, none)
          else BlockHandle.Load (setHandle m1 hid { h1 with readers := 1 }) hid

/-- `BufferManager::Allocate` (lines 191-194). -/
def Allocate (m : BufferManager) (alloc_size : Nat) : BufferManager × Option (Option FileBuffer) :=
  match RegisterMemory m alloc_size true with
  | (m1, none) => (m1, none)
  | (m1, some hid) => Pin m1 hid

/-- The resize-and-account tail of `BufferManager::ReAllocate`
(lines 208-213), after the optional eviction: `buffer->Resize`, the
`current_memory += required_memory` for a negative delta, and the
`memory_usage` update. -/
def ReAllocateResize (m : BufferManager) (hid alloc_size total_size : Nat) :
    BufferManager × Option Unit :=
  match m.handles hid with
  | none => (m, none)
  | some h =>
    match h.buffer with
    | none => (m, none)
    | some b =>
      let b1 : FileBuffer :=
        { b with
          size := alloc_size
          payload := (b.payload ++ List.replicate alloc_size 0).take alloc_size }
      let m1 :=
        if total_size < h.memory_usage then
          { m with current_memory := m.current_memory - (h.memory_usage - total_size) }
        else m
      (setHandle m1 hid { h with buffer := some b1, memory_usage := total_size }, some ())

/-- `BufferManager::ReAllocate` (lines 196-214). -/
def ReAllocate (m : BufferManager) (hid alloc_size : Nat) : BufferManager × Option Unit :=
  if alloc_size < BLOCK_SIZE then (m, none)
  else
    match m.handles hid with
    | none => (m, none)
    | some h =>
      if h.readers ≠ 1 then (m, none)
      else
        let total_size := alloc_size + BLOCK_HEADER_SIZE
        if h.memory_usage < total_size then
          match EvictBlocks m (total_size - h.memory_usage) m.maximum_memory with
          | (m1, none) => (m1, none)
          | (m1, some false) => (m1, none)
          | (m1, some true) => ReAllocateResize m1 hid alloc_size total_size
        else ReAllocateResize m hid alloc_size total_size

/-- `BufferManager::Unpin` (lines 247-256). -/
def Unpin (m : BufferManager) (hid : Nat) : BufferManager × Option Unit :=
  match m.handles hid with
  | none => (m, none)
  | some h =>
    if h.readers = 0 then (m, none)
    else
      let h1 := { h with readers := h.readers - 1 }
      if h1.readers = 0 then
        let h2 := { h1 with eviction_timestamp := h1.eviction_timestamp + 1 }
        ({ setHandle m hid h2 with
            queue := m.queue ++ [{ handle := hid, timestamp := h2.eviction_timestamp }] },
         some ())
      else (setHandle m hid h1, some ())

/-- `BufferManager::SetLimit` (lines 302-321). -/
def SetLimit (m : BufferManager) (limit : Nat) : BufferManager × Option Unit :=
  match EvictBlocks m 0 limit with
  | (m1, none) => (m1, none)
  | (m1, some false) => (m1, none)
  | (m1, some true) =>
    let old_limit := m1.maximum_memory
    let m2 := { m1 with maximum_memory := limit }
    match EvictBlocks m2 0 limit with
    | (m3, none) => (m3, none)
    | (m3, some false) => ({ m3 with maximum_memory := old_limit }, none)
    | (m3, some true) => (m3, some ())

/-- The public operations of the claims (C1): each constructor carries the
client-chosen arguments; handle arguments are store indices. -/
inductive Op where
  | registerBlock (block_id : Nat)
  | registerMemory (alloc_size : Nat) (can_destroy : Bool)
  | allocate (alloc_size : Nat)
  | reAllocate (hid alloc_size : Nat)
  | pin (hid : Nat)
  | unpin (hid : Nat)
  | evictBlocks (extra limit : Nat)
  | setLimit (limit : Nat)

/-- Run one public operation; `(m, some ())` means the operation returned
without raising. -/
def run (op : Op) (m : BufferManager) : BufferManager × Option Unit :=
  match op with
  | .registerBlock id => ((RegisterBlock m id).1, some ())
  | .registerMemory a c =>
    let r := RegisterMemory m a c
    (r.1, r.2.map fun _ => ())
  | .allocate a =>
    let r := Allocate m a
    (r.1, r.2.map fun _ => ())
  | .reAllocate hid a => ReAllocate m hid a
  | .pin hid =>
    let r := Pin m hid
    (r.1, r.2.map fun _ => ())
  | .unpin hid => Unpin m hid
  | .evictBlocks e l =>
    let r := EvictBlocks m e l
    (r.1, r.2.map fun _ => ())
  | .setLimit l => SetLimit m l

/-- States reachable from `m0` by successful public operations. -/
inductive Reachable : BufferManager → BufferManager → Prop where
  | refl (m : BufferManager) : Reachable m m
  | step {m0 m1 m2 : BufferManager} (op : Op) :
      Reachable m0 m1 → run op m1 = (m2, some ()) → Reachable m0 m2

/-- Argument discipline for direct `EvictBlocks` calls: the target limit does
not exceed the current budget (all internal callers use
`maximum_memory` itself, or commit the limit as the new budget). -/
def OkOp : Op → BufferManager → Prop
  | .evictBlocks _ limit, m => limit ≤ m.maximum_memory
  | _, _ => True

/-- Reachability by successful public operations whose direct `EvictBlocks`
calls respect `OkOp`. -/
inductive ReachableOk : BufferManager → BufferManager → Prop where
  | refl (m : BufferManager) : ReachableOk m m
  | step {m0 m1 m2 : BufferManager} (op : Op) :
      ReachableOk m0 m1 → OkOp op m1 → run op m1 = (m2, some ()) → ReachableOk m0 m2

/-- Per-handle invariant maintained by the public interface at quiescent
points: a pinned handle is loaded, a handle owning a buffer is loaded, and a
loaded handle without a buffer can only be a destroyable anonymous block
(whose contents were discarded by an eviction and lost). -/
abbrev InvClauses (h : BlockHandle) : Prop :=
  (0 < h.readers → h.state = BlockState.BLOCK_LOADED) ∧
  (h.buffer.isSome → h.state = BlockState.BLOCK_LOADED) ∧
  (h.state = BlockState.BLOCK_LOADED → h.buffer = none →
    MAXIMUM_BLOCK ≤ h.block_id ∧ h.can_destroy = true)

def HandleInv (m : BufferManager) : Prop :=
  ∀ hid h, m.handles hid = some h → InvClauses h

/-- Structural well-formedness of the handle store: the sizes the `D_ASSERT`s
of `Unload` and `WriteTemporaryBuffer` demand, and a buffer behind every
loaded non-destroyable anonymous handle (what `Unload` spills). -/
def WFhandles (m : BufferManager) : Prop :=
  ∀ hid h, m.handles hid = some h →
    BLOCK_SIZE ≤ h.memory_usage ∧
    (h.state = BlockState.BLOCK_LOADED → MAXIMUM_BLOCK ≤ h.block_id →
      h.can_destroy = false → ∃ b, h.buffer = some b ∧ BLOCK_SIZE ≤ b.size)

/- Concrete states and handles used by the claim witnesses and
counterexamples below. -/

def c10h : BlockHandle :=
  { readers := 0, block_id := 3, buffer := none, eviction_timestamp := 2,
    can_destroy := false, state := BlockState.BLOCK_UNLOADED,
    memory_usage := BLOCK_ALLOC_SIZE }

def c10m : BufferManager :=
  { mkBufferManager "" 10 with handles := fun k => if k = 0 then some c10h else none }

def c6h : BlockHandle :=
  { readers := 1, block_id := 4, buffer := none, eviction_timestamp := 0,
    can_destroy := false, state := BlockState.BLOCK_LOADED,
    memory_usage := BLOCK_ALLOC_SIZE }

def c6m : BufferManager :=
  { mkBufferManager "" 10 with
    handles := fun k => if k = 0 then some c6h else none,
    queue := [{ handle := 0, timestamp := 0 }],
    current_memory := 7 }

def c5h : BlockHandle :=
  { readers := 0, block_id := 2, buffer := none, eviction_timestamp := 4,
    can_destroy := false, state := BlockState.BLOCK_LOADED,
    memory_usage := BLOCK_ALLOC_SIZE }

def c5m : BufferManager :=
  { mkBufferManager "" 10 with
    handles := fun k => if k = 0 then some c5h else none,
    current_memory := 9 }

def c8m : BufferManager := mkBufferManager "tmpdir" 10

def c8buf : FileBuffer :=
  { size := BLOCK_SIZE, payload := List.replicate BLOCK_SIZE 7,
    id := MAXIMUM_BLOCK + 1, can_destroy := false }

def c3m : BufferManager :=
  { mkBufferManager "" 0 with
    current_memory := BLOCK_ALLOC_SIZE + 1,
    handles := fun k =>
      if k = 0 then
        some { readers := 0, block_id := 0, buffer := none, eviction_timestamp := 0,
               can_destroy := false, state := BlockState.BLOCK_LOADED,
               memory_usage := BLOCK_ALLOC_SIZE }
      else none,
    queue := [{ handle := 0, timestamp := 0 }] }

def c3wm : BufferManager := { mkBufferManager "" 0 with current_memory := 5 }

def c4h : BlockHandle :=
  { readers := 0, block_id := MAXIMUM_BLOCK, buffer := none, eviction_timestamp := 0,
    can_destroy := true, state := BlockState.BLOCK_UNLOADED,
    memory_usage := BLOCK_ALLOC_SIZE }

def c4m : BufferManager :=
  { mkBufferManager "" 10 with handles := fun k => if k = 0 then some c4h else none }

def regTraceM : BufferManager := (run (Op.registerBlock 1) (mkBufferManager "" 1000000)).1

def regH : BlockHandle :=
  { readers := 0, block_id := 1, buffer := none, eviction_timestamp := 0,
    can_destroy := false, state := BlockState.BLOCK_UNLOADED,
    memory_usage := BLOCK_ALLOC_SIZE }

def pinTraceM : BufferManager := (run (Op.pin 0) regTraceM).1

def pinnedH : BlockHandle :=
  { readers := 1, block_id := 1, buffer := some (blockManagerRead 1),
    eviction_timestamp := 0, can_destroy := false,
    state := BlockState.BLOCK_LOADED, memory_usage := BLOCK_ALLOC_SIZE }

/-! ### Basic store lemmas -/

@[simp]
theorem setHandle_handles (m : BufferManager) (hid : Nat) (h : BlockHandle) (k : Nat) :
    (setHandle m hid h).handles k = if k = hid then some h else m.handles k := rfl

@[simp]
theorem setHandle_current (m : BufferManager) (hid : Nat) (h : BlockHandle) :
    (setHandle m hid h).current_memory = m.current_memory := rfl

@[simp]
theorem setHandle_maximum (m : BufferManager) (hid : Nat) (h : BlockHandle) :
    (setHandle m hid h).maximum_memory = m.maximum_memory := rfl

@[simp]
theorem setHandle_temp (m : BufferManager) (hid : Nat) (h : BlockHandle) :
    (setHandle m hid h).temp_directory = m.temp_directory := rfl

@[simp]
theorem setHandle_queue (m : BufferManager) (hid : Nat) (h : BlockHandle) :
    (setHandle m hid h).queue = m.queue := rfl

/-- `CanUnload` reads only the handle's own fields and the manager's
`temp_directory`. -/
theorem CanUnload_congr (h : BlockHandle) {m m' : BufferManager}
    (ht : m.temp_directory = m'.temp_directory) :
    h.CanUnload m = h.CanUnload m' := by
  unfold BlockHandle.CanUnload
  rw [ht]

theorem WriteTemporaryBuffer_frame {m m' : BufferManager} {b : FileBuffer} {r : Option Unit}
    (heq : WriteTemporaryBuffer m b = (m', r)) :
    m'.current_memory = m.current_memory ∧
    m'.maximum_memory = m.maximum_memory ∧
    m'.temp_directory = m.temp_directory ∧
    m'.handles = m.handles ∧
    m'.queue = m.queue ∧
    m'.blocks = m.blocks ∧
    m'.next_handle = m.next_handle ∧
    m'.temporary_id = m.temporary_id := by
  have h1 : m' = (WriteTemporaryBuffer m b).1 := by rw [heq]
  subst h1
  unfold WriteTemporaryBuffer RequireTemporaryDirectory
  by_cases hd : m.temp_directory = ""
  · simp [hd]
  · simp only [hd, if_false]
    split <;> simp

/-! ### `Unload` lemmas -/

theorem Unload_frame {m m' : BufferManager} {hid : Nat} {r : Option Unit}
    (heq : BlockHandle.Unload m hid = (m', r)) :
    m'.maximum_memory = m.maximum_memory ∧
    m'.temp_directory = m.temp_directory ∧
    m'.queue = m.queue ∧
    m'.blocks = m.blocks ∧
    m'.next_handle = m.next_handle ∧
    m'.temporary_id = m.temporary_id := by
  have h1 : m' = (BlockHandle.Unload m hid).1 := by rw [heq]
  subst h1
  unfold BlockHandle.Unload
  dsimp only
  repeat' split
  all_goals first
    | exact ⟨rfl, rfl, rfl, rfl, rfl, rfl⟩
    | (rename_i hw
       have hf := WriteTemporaryBuffer_frame hw
       simp only [setHandle] at hf ⊢
       exact ⟨hf.2.1, hf.2.2.1, hf.2.2.2.2.1, hf.2.2.2.2.2.1, hf.2.2.2.2.2.2.1,
              hf.2.2.2.2.2.2.2⟩)

theorem CanUnload_eq_false_iff (h : BlockHandle) (m : BufferManager) :
    h.CanUnload m = false ↔
      (h.state = BlockState.BLOCK_UNLOADED ∨ 0 < h.readers ∨
        (MAXIMUM_BLOCK ≤ h.block_id ∧ h.can_destroy = false ∧ m.temp_directory = "")) := by
  unfold BlockHandle.CanUnload
  repeat' split
  all_goals simp_all

theorem CanUnload_true_imp {h : BlockHandle} {m : BufferManager}
    (ht : h.CanUnload m = true) :
    h.readers = 0 ∧ h.state = BlockState.BLOCK_LOADED ∧
      (MAXIMUM_BLOCK ≤ h.block_id → h.can_destroy = false → m.temp_directory ≠ "") := by
  unfold BlockHandle.CanUnload at ht
  split at ht
  · simp_all
  · split at ht
    · simp_all
    · split at ht
      · simp_all
      · rename_i hns hnr hnc
        refine ⟨by omega, ?_, fun hb hcd htd => hnc ⟨hb, hcd, htd⟩⟩
        cases hs : h.state <;> simp_all

theorem Unload_current_le {m m' : BufferManager} {hid : Nat} {r : Option Unit}
    (heq : BlockHandle.Unload m hid = (m', r)) :
    m'.current_memory ≤ m.current_memory := by
  have h1 : m' = (BlockHandle.Unload m hid).1 := by rw [heq]
  subst h1
  unfold BlockHandle.Unload
  dsimp only
  repeat' split
  all_goals first
    | exact Nat.le_refl _
    | exact Nat.sub_le _ _
    | (rename_i hw
       have hf := WriteTemporaryBuffer_frame hw
       simp only [setHandle] at hf
       first
         | exact Nat.le_of_eq hf.1
         | (show _ - _ ≤ m.current_memory
            rw [hf.1]
            exact Nat.sub_le _ _))

theorem Unload_handles_other {m m' : BufferManager} {hid : Nat} {r : Option Unit}
    (heq : BlockHandle.Unload m hid = (m', r)) (k : Nat) (hk : k ≠ hid) :
    m'.handles k = m.handles k := by
  have h1 : m' = (BlockHandle.Unload m hid).1 := by rw [heq]
  subst h1
  unfold BlockHandle.Unload
  dsimp only
  repeat' split
  all_goals first
    | rfl
    | (simp [setHandle, hk]; done)
    | (rename_i hw
       have hf := WriteTemporaryBuffer_frame hw
       have hfh := congrFun hf.2.2.2.1 k
       simp only [setHandle] at hfh
       simp [hk] at hfh
       simp [setHandle, hk, hfh])

theorem Unload_success {m m' : BufferManager} {hid : Nat} {h : BlockHandle}
    (hh : m.handles hid = some h) (hs : h.state ≠ BlockState.BLOCK_UNLOADED)
    (heq : BlockHandle.Unload m hid = (m', some ())) :
    m'.handles hid =
      some { h with state := BlockState.BLOCK_UNLOADED, buffer := none } ∧
    m'.current_memory = m.current_memory - h.memory_usage ∧
    h.CanUnload m = true ∧ BLOCK_SIZE ≤ h.memory_usage ∧ h.readers = 0 := by
  unfold BlockHandle.Unload at heq
  rw [hh] at heq
  dsimp only at heq
  rw [if_neg hs] at heq
  by_cases hcu : h.CanUnload m = false
  · rw [if_pos hcu] at heq
    simp at heq
  · rw [if_neg hcu] at heq
    have hcu' : h.CanUnload m = true := by
      cases hb : h.CanUnload m
      · exact absurd hb hcu
      · rfl
    have hr0 : h.readers = 0 := (CanUnload_true_imp hcu').1
    by_cases hus : h.memory_usage < BLOCK_SIZE
    · rw [if_pos hus] at heq
      simp at heq
    · rw [if_neg hus] at heq
      by_cases hsp : MAXIMUM_BLOCK ≤ h.block_id ∧ h.can_destroy = false
      · rw [if_pos hsp] at heq
        cases hb : h.buffer with
        | none =>
          rw [hb] at heq
          simp at heq
        | some b =>
          rw [hb] at heq
          dsimp only at heq
          split at heq
          · simp at heq
          · rename_i m2 u hw
            have hm := (congrArg Prod.fst heq).symm
            subst hm
            have hf := WriteTemporaryBuffer_frame hw
            have hc2 : m2.current_memory = m.current_memory := by
              simpa [setHandle] using hf.1
            refine ⟨by simp [setHandle], ?_, hcu', by omega, hr0⟩
            simp [setHandle, hc2]
      · rw [if_neg hsp] at heq
        have hm := (congrArg Prod.fst heq).symm
        subst hm
        exact ⟨by simp [setHandle], by simp [setHandle], hcu', by omega, hr0⟩

theorem WriteTemporaryBuffer_some {m : BufferManager} {b : FileBuffer}
    (ht : m.temp_directory ≠ "") (hbs : BLOCK_SIZE ≤ b.size) :
    (WriteTemporaryBuffer m b).2 = some () := by
  have hlt : ¬ b.size < BLOCK_SIZE := by omega
  unfold WriteTemporaryBuffer RequireTemporaryDirectory
  simp [ht, hlt]

theorem Unload_some {m : BufferManager} {hid : Nat} {h : BlockHandle}
    (hh : m.handles hid = some h) (hcu : h.CanUnload m = true)
    (hus : BLOCK_SIZE ≤ h.memory_usage)
    (hbuf : MAXIMUM_BLOCK ≤ h.block_id → h.can_destroy = false →
      ∃ b, h.buffer = some b ∧ BLOCK_SIZE ≤ b.size) :
    (BlockHandle.Unload m hid).2 = some () := by
  obtain ⟨hr0, hst, htd⟩ := CanUnload_true_imp hcu
  have hs : h.state ≠ BlockState.BLOCK_UNLOADED := by rw [hst]; simp
  have hcu2 : ¬ h.CanUnload m = false := by simp [hcu]
  have hus2 : ¬ h.memory_usage < BLOCK_SIZE := by omega
  unfold BlockHandle.Unload
  rw [hh]
  dsimp only
  rw [if_neg hs, if_neg hcu2, if_neg hus2]
  by_cases hsp : MAXIMUM_BLOCK ≤ h.block_id ∧ h.can_destroy = false
  · rw [if_pos hsp]
    obtain ⟨b, hb, hbs⟩ := hbuf hsp.1 hsp.2
    rw [hb]
    dsimp only
    have htd2 : (setHandle m hid
        { h with state := BlockState.BLOCK_UNLOADED, buffer := some b }).temp_directory ≠ "" := by
      simpa [setHandle] using htd hsp.1 hsp.2
    have hw := WriteTemporaryBuffer_some htd2 hbs
    rcases hwr : WriteTemporaryBuffer
        (setHandle m hid
          { h with state := BlockState.BLOCK_UNLOADED, buffer := some b }) b with ⟨m2, r2⟩
    rw [hwr] at hw
    simp only at hw
    simp [hw]
  · rw [if_neg hsp]

/-! ### `evictLoop` / `EvictBlocks` lemmas -/

theorem evictLoop_frame {limit : Nat} {q : List BufferEvictionNode} {m m' : BufferManager}
    {r : Option Bool} (heq : evictLoop limit q m = (m', r)) :
    m'.maximum_memory = m.maximum_memory ∧
    m'.temp_directory = m.temp_directory ∧
    m'.blocks = m.blocks ∧
    m'.next_handle = m.next_handle ∧
    m'.temporary_id = m.temporary_id := by
  induction q generalizing m m' r with
  | nil =>
    simp only [evictLoop] at heq
    split at heq <;> (cases heq; exact ⟨rfl, rfl, rfl, rfl, rfl⟩)
  | cons node rest ih =>
    simp only [evictLoop] at heq
    split at heq
    · cases heq; exact ⟨rfl, rfl, rfl, rfl, rfl⟩
    · split at heq
      · exact ih heq
      · split at heq
        · exact ih heq
        · split at heq
          · rename_i hw
            cases heq
            have hf := Unload_frame hw
            exact ⟨hf.1, hf.2.1, hf.2.2.2.1, hf.2.2.2.2.1, hf.2.2.2.2.2⟩
          · rename_i hw
            have hf := Unload_frame hw
            have hi := ih heq
            exact ⟨hi.1.trans hf.1, hi.2.1.trans hf.2.1, hi.2.2.1.trans hf.2.2.2.1,
                   hi.2.2.2.1.trans hf.2.2.2.2.1, hi.2.2.2.2.trans hf.2.2.2.2.2⟩

theorem evictLoop_current_le {limit : Nat} {q : List BufferEvictionNode} {m m' : BufferManager}
    {r : Option Bool} (heq : evictLoop limit q m = (m', r)) :
    m'.current_memory ≤ m.current_memory := by
  induction q generalizing m m' r with
  | nil =>
    simp only [evictLoop] at heq
    split at heq <;> (cases heq; exact Nat.le_refl _)
  | cons node rest ih =>
    simp only [evictLoop] at heq
    split at heq
    · cases heq; exact Nat.le_refl _
    · split at heq
      · exact ih heq
      · split at heq
        · exact ih heq
        · split at heq
          · rename_i hw
            cases heq
            exact Unload_current_le hw
          · rename_i hw
            exact (ih heq).trans (Unload_current_le hw)

theorem evictLoop_true_le {limit : Nat} {q : List BufferEvictionNode} {m m' : BufferManager}
    (heq : evictLoop limit q m = (m', some true)) :
    m'.current_memory ≤ limit := by
  induction q generalizing m m' with
  | nil =>
    simp only [evictLoop] at heq
    split at heq
    · rename_i hc
      cases heq
      exact hc
    · simp at heq
  | cons node rest ih =>
    simp only [evictLoop] at heq
    split at heq
    · rename_i hc
      cases heq
      exact hc
    · split at heq
      · exact ih heq
      · split at heq
        · exact ih heq
        · split at heq
          · simp at heq
          · exact ih heq

theorem Bool_ne_false {b : Bool} (hb : ¬ b = false) : b = true := by
  cases b
  · exact absurd rfl hb
  · rfl

theorem nodeCanUnload_true_imp {node : BufferEvictionNode} {h : BlockHandle}
    {m : BufferManager} (hn : node.CanUnload h m = true) :
    h.CanUnload m = true ∧ node.timestamp = h.eviction_timestamp := by
  unfold BufferEvictionNode.CanUnload at hn
  split at hn
  · simp at hn
  · exact ⟨hn, by omega⟩

theorem nodeCanUnload_false_of_CanUnload_false {node : BufferEvictionNode} {h : BlockHandle}
    {m : BufferManager} (hc : h.CanUnload m = false) :
    node.CanUnload h m = false := by
  unfold BufferEvictionNode.CanUnload
  split
  · rfl
  · exact hc

theorem evictLoop_untouched {limit : Nat} {q : List BufferEvictionNode} {m m' : BufferManager}
    {r : Option Bool} {hid : Nat} {h : BlockHandle}
    (heq : evictLoop limit q m = (m', r))
    (hh : m.handles hid = some h) (hcu : h.CanUnload m = false) :
    m'.handles hid = some h := by
  induction q generalizing m m' r with
  | nil =>
    simp only [evictLoop] at heq
    split at heq <;> (cases heq; exact hh)
  | cons node rest ih =>
    simp only [evictLoop] at heq
    split at heq
    · cases heq; exact hh
    · split at heq
      · exact ih heq hh hcu
      · rename_i h2 hlk
        split at heq
        · exact ih heq hh hcu
        · rename_i hcu2
          have hne : hid ≠ node.handle := by
            intro he
            subst he
            rw [hh] at hlk
            cases hlk
            exact hcu2 (nodeCanUnload_false_of_CanUnload_false hcu)
          split at heq
          · rename_i m1 hw
            cases heq
            exact (Unload_handles_other hw hid hne).trans hh
          · rename_i m1 val hw
            have hh1 : m1.handles hid = some h := (Unload_handles_other hw hid hne).trans hh
            have hcu1 : h.CanUnload m1 = false :=
              (CanUnload_congr h (Unload_frame hw).2.1).trans hcu
            exact ih heq hh1 hcu1

theorem HandleInv_Unload {m m1 : BufferManager} {hid : Nat} {h : BlockHandle}
    (hin : HandleInv m) (hlk : m.handles hid = some h)
    (hs : h.state ≠ BlockState.BLOCK_UNLOADED)
    (hw : BlockHandle.Unload m hid = (m1, some ())) : HandleInv m1 := by
  obtain ⟨hset, -, -, -, hr0⟩ := Unload_success hlk hs hw
  intro k h' hk
  by_cases hke : k = hid
  · subst hke
    rw [hk] at hset
    cases hset
    exact ⟨fun hx => absurd hx (by simp [hr0]), by simp, by simp⟩
  · rw [Unload_handles_other hw k hke] at hk
    exact hin k h' hk

theorem evictLoop_HandleInv {limit : Nat} {q : List BufferEvictionNode} {m m' : BufferManager}
    {b : Bool} (heq : evictLoop limit q m = (m', some b))
    (hin : HandleInv m) : HandleInv m' := by
  induction q generalizing m m' b with
  | nil =>
    simp only [evictLoop] at heq
    split at heq <;> (cases heq; exact hin)
  | cons node rest ih =>
    simp only [evictLoop] at heq
    split at heq
    · cases heq; exact hin
    · split at heq
      · exact ih heq hin
      · rename_i h2 hlk
        split at heq
        · exact ih heq hin
        · rename_i hcu2
          have hn := nodeCanUnload_true_imp (Bool_ne_false hcu2)
          have hst := (CanUnload_true_imp hn.1).2.1
          have hs2 : h2.state ≠ BlockState.BLOCK_UNLOADED := by rw [hst]; simp
          split at heq
          · simp at heq
          · rename_i m1 val hw
            cases val
            exact ih heq (HandleInv_Unload hin hlk hs2 hw)

theorem WFhandles_Unload {m m1 : BufferManager} {hid : Nat} {h : BlockHandle}
    (hwf : WFhandles m) (hlk : m.handles hid = some h)
    (hs : h.state ≠ BlockState.BLOCK_UNLOADED)
    (hw : BlockHandle.Unload m hid = (m1, some ())) : WFhandles m1 := by
  obtain ⟨hset, -, -, hus, -⟩ := Unload_success hlk hs hw
  intro k h' hk
  by_cases hke : k = hid
  · subst hke
    rw [hk] at hset
    cases hset
    exact ⟨hus, by simp⟩
  · rw [Unload_handles_other hw k hke] at hk
    exact hwf k h' hk

theorem evictLoop_WF {limit : Nat} {q : List BufferEvictionNode} {m m' : BufferManager}
    {r : Option Bool} (heq : evictLoop limit q m = (m', r))
    (hwf : WFhandles m) : r ≠ none ∧ WFhandles m' := by
  induction q generalizing m m' r with
  | nil =>
    simp only [evictLoop] at heq
    split at heq <;> (cases heq; exact ⟨by simp, hwf⟩)
  | cons node rest ih =>
    simp only [evictLoop] at heq
    split at heq
    · cases heq; exact ⟨by simp, hwf⟩
    · split at heq
      · exact ih heq hwf
      · rename_i h2 hlk
        split at heq
        · exact ih heq hwf
        · rename_i hcu2
          have hn := nodeCanUnload_true_imp (Bool_ne_false hcu2)
          have hst := (CanUnload_true_imp hn.1).2.1
          have hs2 : h2.state ≠ BlockState.BLOCK_UNLOADED := by rw [hst]; simp
          have hsome := Unload_some hlk hn.1 (hwf node.handle h2 hlk).1
            (fun hb hcd => (hwf node.handle h2 hlk).2 hst hb hcd)
          split at heq
          · rename_i m1 hw
            rw [hw] at hsome
            simp at hsome
          · rename_i m1 val hw
            cases val
            exact ih heq (WFhandles_Unload hwf hlk hs2 hw)

theorem evictLoop_false_handles {limit : Nat} {q : List BufferEvictionNode}
    {m m' : BufferManager} (heq : evictLoop limit q m = (m', some false))
    (hhs : m'.handles = m.handles) : m'.current_memory = m.current_memory := by
  induction q generalizing m m' with
  | nil =>
    simp only [evictLoop] at heq
    split at heq
    · simp at heq
    · cases heq; rfl
  | cons node rest ih =>
    simp only [evictLoop] at heq
    split at heq
    · simp at heq
    · split at heq
      · exact ih heq hhs
      · rename_i h2 hlk
        split at heq
        · exact ih heq hhs
        · rename_i hcu2
          have hn := nodeCanUnload_true_imp (Bool_ne_false hcu2)
          have hst := (CanUnload_true_imp hn.1).2.1
          have hs2 : h2.state ≠ BlockState.BLOCK_UNLOADED := by rw [hst]; simp
          split at heq
          · simp at heq
          · rename_i m1 val hw
            cases val
            obtain ⟨hset, -, -, -, -⟩ := Unload_success hlk hs2 hw
            have hcu1 : BlockHandle.CanUnload
                { h2 with state := BlockState.BLOCK_UNLOADED, buffer := none } m1 = false := by
              rw [CanUnload_eq_false_iff]
              exact Or.inl rfl
            have hfin := evictLoop_untouched heq hset hcu1
            rw [hhs, hlk] at hfin
            injection hfin with hinj
            have hstc := congrArg BlockHandle.state hinj
            simp [hst] at hstc

theorem EvictBlocks_frame {m m' : BufferManager} {e l : Nat} {r : Option Bool}
    (heq : EvictBlocks m e l = (m', r)) :
    m'.maximum_memory = m.maximum_memory ∧
    m'.temp_directory = m.temp_directory ∧
    m'.blocks = m.blocks ∧
    m'.next_handle = m.next_handle ∧
    m'.temporary_id = m.temporary_id := by
  unfold EvictBlocks at heq
  rcases hle : evictLoop l m.queue { m with current_memory := m.current_memory + e }
    with ⟨m1, r1⟩
  rw [hle] at heq
  have hf := evictLoop_frame hle
  match r1 with
  | none => cases heq; exact hf
  | some true => cases heq; exact hf
  | some false => cases heq; exact hf

theorem EvictBlocks_true_le {m m' : BufferManager} {e l : Nat}
    (heq : EvictBlocks m e l = (m', some true)) :
    m'.current_memory ≤ l := by
  unfold EvictBlocks at heq
  rcases hle : evictLoop l m.queue { m with current_memory := m.current_memory + e }
    with ⟨m1, r1⟩
  rw [hle] at heq
  match r1 with
  | none => simp at heq
  | some true => cases heq; exact evictLoop_true_le hle
  | some false => simp at heq

theorem EvictBlocks_false_le {m m' : BufferManager} {e l : Nat}
    (heq : EvictBlocks m e l = (m', some false)) :
    m'.current_memory ≤ m.current_memory ∧
    (m'.handles = m.handles → m'.current_memory = m.current_memory) := by
  unfold EvictBlocks at heq
  rcases hle : evictLoop l m.queue { m with current_memory := m.current_memory + e }
    with ⟨m1, r1⟩
  rw [hle] at heq
  match r1 with
  | none => simp at heq
  | some true => simp at heq
  | some false =>
    cases heq
    have hce := evictLoop_current_le hle
    simp only at hce
    constructor
    · simp only
      omega
    · intro hhs
      simp only at hhs
      have := evictLoop_false_handles hle hhs
      simp only at this
      simp only
      omega

theorem EvictBlocks_HandleInv {m m' : BufferManager} {e l : Nat} {b : Bool}
    (heq : EvictBlocks m e l = (m', some b)) (hin : HandleInv m) : HandleInv m' := by
  unfold EvictBlocks at heq
  rcases hle : evictLoop l m.queue { m with current_memory := m.current_memory + e }
    with ⟨m1, r1⟩
  rw [hle] at heq
  have hin0 : HandleInv { m with current_memory := m.current_memory + e } := hin
  match r1 with
  | none => simp at heq
  | some true => cases heq; exact evictLoop_HandleInv hle hin0
  | some false =>
    cases heq
    intro k h hk
    exact evictLoop_HandleInv hle hin0 k h hk

theorem EvictBlocks_WF {m m' : BufferManager} {e l : Nat} {r : Option Bool}
    (heq : EvictBlocks m e l = (m', r)) (hwf : WFhandles m) :
    r ≠ none ∧ WFhandles m' := by
  unfold EvictBlocks at heq
  rcases hle : evictLoop l m.queue { m with current_memory := m.current_memory + e }
    with ⟨m1, r1⟩
  rw [hle] at heq
  have hwf0 : WFhandles { m with current_memory := m.current_memory + e } := hwf
  have hw := evictLoop_WF hle hwf0
  match r1 with
  | none => exact absurd rfl hw.1
  | some true => cases heq; exact ⟨by simp, hw.2⟩
  | some false =>
    cases heq
    exact ⟨by simp, fun k h hk => hw.2 k h hk⟩

theorem EvictBlocks_untouched {m m' : BufferManager} {e l : Nat} {r : Option Bool}
    {hid : Nat} {h : BlockHandle}
    (heq : EvictBlocks m e l = (m', r))
    (hh : m.handles hid = some h) (hcu : h.CanUnload m = false) :
    m'.handles hid = some h := by
  unfold EvictBlocks at heq
  rcases hle : evictLoop l m.queue { m with current_memory := m.current_memory + e }
    with ⟨m1, r1⟩
  rw [hle] at heq
  have hh0 : ({ m with current_memory := m.current_memory + e } :
      BufferManager).handles hid = some h := hh
  have hcu0 : h.CanUnload { m with current_memory := m.current_memory + e } = false := hcu
  have hu := evictLoop_untouched hle hh0 hcu0
  match r1 with
  | none => cases heq; exact hu
  | some true => cases heq; exact hu
  | some false => cases heq; exact hu

/-! ### `Load` lemmas -/

theorem state_eq_unloaded_of_ne {s : BlockState} (hs : s ≠ BlockState.BLOCK_LOADED) :
    s = BlockState.BLOCK_UNLOADED := by
  cases s
  · rfl
  · exact absurd rfl hs

theorem Load_frame {m m' : BufferManager} {hid : Nat} {r : Option (Option FileBuffer)}
    (heq : BlockHandle.Load m hid = (m', r)) :
    m'.current_memory = m.current_memory ∧
    m'.maximum_memory = m.maximum_memory ∧
    m'.temp_directory = m.temp_directory ∧
    m'.queue = m.queue ∧
    m'.blocks = m.blocks ∧
    m'.next_handle = m.next_handle ∧
    m'.temporary_id = m.temporary_id ∧
    m'.temp_files = m.temp_files := by
  have h1 : m' = (BlockHandle.Load m hid).1 := by rw [heq]
  subst h1
  unfold BlockHandle.Load
  dsimp only
  repeat' split
  all_goals exact ⟨rfl, rfl, rfl, rfl, rfl, rfl, rfl, rfl⟩

theorem Load_success {m m' : BufferManager} {hid : Nat} {h : BlockHandle}
    {tok : Option FileBuffer}
    (hh : m.handles hid = some h) (heq : BlockHandle.Load m hid = (m', some tok)) :
    ∃ h', m'.handles hid = some h' ∧
      h'.state = BlockState.BLOCK_LOADED ∧
      h'.readers = h.readers ∧
      h'.block_id = h.block_id ∧
      h'.can_destroy = h.can_destroy ∧
      h'.memory_usage = h.memory_usage ∧
      h'.eviction_timestamp = h.eviction_timestamp ∧
      (∀ k, k ≠ hid → m'.handles k = m.handles k) ∧
      (∀ b, tok = some b → h'.buffer = some b) ∧
      (tok = none → h'.buffer = h.buffer ∧ h.state = BlockState.BLOCK_UNLOADED ∧
        MAXIMUM_BLOCK ≤ h.block_id ∧ h.can_destroy = true) := by
  unfold BlockHandle.Load at heq
  rw [hh] at heq
  dsimp only at heq
  split at heq
  · rename_i hst
    split at heq
    · simp at heq
    · rename_i b hb
      cases heq
      refine ⟨h, hh, hst, rfl, rfl, rfl, rfl, rfl, fun k _ => rfl, ?_, ?_⟩
      · intro b' hb'
        injection hb' with hb2
        rw [← hb2]
        exact hb
      · intro hc
        cases hc
  · rename_i hst
    have hsu : h.state = BlockState.BLOCK_UNLOADED := state_eq_unloaded_of_ne hst
    split at heq
    · cases heq
      refine ⟨{ h with state := BlockState.BLOCK_LOADED, buffer := some (blockManagerRead h.block_id) }, by simp [setHandle], rfl, rfl, rfl, rfl, rfl, rfl, fun k hk => by simp [setHandle, hk], ?_, ?_⟩
      · intro b' hb'
        injection hb' with hb2
        rw [← hb2]
      · intro hc
        cases hc
    · split at heq
      · rename_i hnp hcd
        cases heq
        refine ⟨{ h with state := BlockState.BLOCK_LOADED },
          by simp [setHandle], rfl, rfl, rfl, rfl, rfl, rfl,
          fun k hk => by simp [setHandle, hk], ?_, ?_⟩
        · intro b' hb'
          cases hb'
        · intro _
          exact ⟨rfl, hsu, by omega, hcd⟩
      · split at heq
        · simp at heq
        · rename_i b hrd
          cases heq
          refine ⟨{ h with state := BlockState.BLOCK_LOADED, buffer := some b },
            by simp [setHandle], rfl, rfl, rfl, rfl, rfl, rfl,
            fun k hk => by simp [setHandle, hk], ?_, ?_⟩
          · intro b' hb'
            injection hb' with hb2
            rw [← hb2]
          · intro hc
            cases hc

theorem HandleInv_setHandle {m : BufferManager} {hid : Nat} {h : BlockHandle}
    (hin : HandleInv m) (hcl : InvClauses h) : HandleInv (setHandle m hid h) := by
  intro k h' hk
  simp only [setHandle_handles] at hk
  by_cases hke : k = hid
  · rw [if_pos hke] at hk
    cases hk
    exact hcl
  · rw [if_neg hke] at hk
    exact hin k h' hk

theorem HandleInv_after_Load {m m' : BufferManager} {hid : Nat} {h : BlockHandle}
    {tok : Option FileBuffer}
    (hh : m.handles hid = some h) (heq : BlockHandle.Load m hid = (m', some tok))
    (hothers : ∀ k hk, k ≠ hid → m.handles k = some hk → InvClauses hk) :
    HandleInv m' := by
  obtain ⟨h', hset, hst', hrd, hbid, hcd, hmu, hts, hoth, htok, htokn⟩ := Load_success hh heq
  intro k h2 hk2
  by_cases hke : k = hid
  · subst hke
    rw [hk2] at hset
    injection hset with hinj
    subst hinj
    refine ⟨fun _ => hst', fun _ => hst', ?_⟩
    intro _ hbn
    cases htokc : tok with
    | some b =>
      rw [htok b htokc] at hbn
      cases hbn
    | none =>
      obtain ⟨-, -, hbid2, hcd2⟩ := htokn htokc
      rw [hbid, hcd]
      exact ⟨hbid2, hcd2⟩
  · rw [hoth k hke] at hk2
    exact hothers k h2 hke hk2

/-! ### Per-operation preservation lemmas -/

theorem RegisterBlock_spec {m m' : BufferManager} {id hid : Nat}
    (heq : RegisterBlock m id = (m', hid)) :
    (HandleInv m → HandleInv m') ∧
    m'.current_memory = m.current_memory ∧
    m'.maximum_memory = m.maximum_memory := by
  unfold RegisterBlock registerFresh at heq
  split at heq
  · split at heq
    · cases heq
      exact ⟨fun hi => hi, rfl, rfl⟩
    · cases heq
      refine ⟨fun hi => ?_, rfl, rfl⟩
      intro k h hk
      exact HandleInv_setHandle hi ⟨by simp, by simp, by simp⟩ k h hk
  · cases heq
    refine ⟨fun hi => ?_, rfl, rfl⟩
    intro k h hk
    exact HandleInv_setHandle hi ⟨by simp, by simp, by simp⟩ k h hk

theorem RegisterMemory_spec {m m' : BufferManager} {a : Nat} {c : Bool} {hid : Nat}
    (heq : RegisterMemory m a c = (m', some hid)) :
    (HandleInv m → HandleInv m') ∧
    m'.maximum_memory = m.maximum_memory ∧
    m'.current_memory ≤ m.maximum_memory := by
  unfold RegisterMemory at heq
  rcases hev : EvictBlocks m (a + BLOCK_HEADER_SIZE) m.maximum_memory with ⟨m1, r1⟩
  rw [hev] at heq
  have hfr := EvictBlocks_frame hev
  match r1 with
  | none => simp at heq
  | some false => simp at heq
  | some true =>
    dsimp only at heq
    split at heq
    · simp at heq
    · cases heq
      refine ⟨fun hi => ?_, hfr.1,
        (EvictBlocks_true_le hev : m1.current_memory ≤ m.maximum_memory)⟩
      intro k h hk
      exact HandleInv_setHandle (fun k2 h2 hk2 => EvictBlocks_HandleInv hev hi k2 h2 hk2)
        ⟨by simp, by simp, by simp⟩ k h hk

theorem Unpin_spec {m m' : BufferManager} {hid : Nat}
    (heq : Unpin m hid = (m', some ())) :
    (HandleInv m → HandleInv m') ∧
    m'.current_memory = m.current_memory ∧
    m'.maximum_memory = m.maximum_memory := by
  unfold Unpin at heq
  split at heq
  · simp at heq
  · rename_i h hh
    split at heq
    · simp at heq
    · rename_i hr
      dsimp only at heq
      split at heq
      · rename_i hr1
        cases heq
        refine ⟨fun hi => ?_, rfl, rfl⟩
        have hcl := hi hid h hh
        intro k h2 hk2
        refine HandleInv_setHandle hi ?_ k h2 hk2
        refine ⟨?_, hcl.2.1, hcl.2.2⟩
        intro hx
        exact absurd hx (by simp [hr1])
      · rename_i hr1
        cases heq
        refine ⟨fun hi => ?_, rfl, rfl⟩
        have hcl := hi hid h hh
        intro k h2 hk2
        refine HandleInv_setHandle hi ?_ k h2 hk2
        refine ⟨?_, hcl.2.1, hcl.2.2⟩
        intro _
        exact hcl.1 (by omega)

theorem ReAllocateResize_spec {m m' : BufferManager} {hid a t : Nat}
    (heq : ReAllocateResize m hid a t = (m', some ())) :
    (HandleInv m → HandleInv m') ∧
    m'.maximum_memory = m.maximum_memory ∧
    m'.current_memory ≤ m.current_memory := by
  unfold ReAllocateResize at heq
  split at heq
  · simp at heq
  · rename_i h hh
    split at heq
    · simp at heq
    · rename_i b hb
      dsimp only at heq
      cases heq
      refine ⟨fun hi => ?_, ?_, ?_⟩
      · have hcl := hi hid h hh
        have hst : h.state = BlockState.BLOCK_LOADED := hcl.2.1 (by simp [hb])
        intro k h2 hk2
        refine HandleInv_setHandle ?_ ?_ k h2 hk2
        · intro k2 h3 hk3
          split at hk3 <;> exact hi k2 h3 hk3
        · exact ⟨fun _ => hst, fun _ => hst, by simp⟩
      · split <;> rfl
      · split
        · exact Nat.sub_le _ _
        · exact Nat.le_refl _

theorem Pin_spec {m m' : BufferManager} {hid : Nat} {tok : Option FileBuffer}
    (heq : Pin m hid = (m', some tok)) :
    (HandleInv m → HandleInv m') ∧
    m'.maximum_memory = m.maximum_memory ∧
    (m.current_memory ≤ m.maximum_memory → m'.current_memory ≤ m'.maximum_memory) := by
  unfold Pin at heq
  split at heq
  · simp at heq
  · rename_i h hh
    split at heq
    · rename_i hst
      have hfr := Load_frame heq
      have hmc : m'.current_memory = m.current_memory := hfr.1
      have hmx : m'.maximum_memory = m.maximum_memory := hfr.2.1
      refine ⟨fun hi => ?_, hmx, fun hb => by omega⟩
      have hmm : (setHandle m hid { h with readers := h.readers + 1 }).handles hid
          = some { h with readers := h.readers + 1 } := by simp [setHandle]
      refine HandleInv_after_Load hmm heq ?_
      intro k hk hke hkk
      simp only [setHandle_handles, if_neg hke] at hkk
      exact hi k hk hkk
    · rename_i hst
      dsimp only at heq
      rcases hev : EvictBlocks m h.memory_usage m.maximum_memory with ⟨m1, r1⟩
      rw [hev] at heq
      have hevf := EvictBlocks_frame hev
      match r1 with
      | none => simp at heq
      | some false => simp at heq
      | some true =>
        dsimp only at heq
        split at heq
        · simp at heq
        · rename_i h1 hh1
          have hcle : m1.current_memory ≤ m.maximum_memory := EvictBlocks_true_le hev
          split at heq
          · rename_i hst1
            have hfr := Load_frame heq
            have hmc : m'.current_memory = m1.current_memory := hfr.1
            have hmx : m'.maximum_memory = m1.maximum_memory := hfr.2.1
            refine ⟨fun hi => ?_, hmx.trans hevf.1, fun _ => by omega⟩
            have hmm : (setHandle m1 hid { h1 with readers := h1.readers + 1 }).handles hid
                = some { h1 with readers := h1.readers + 1 } := by simp [setHandle]
            refine HandleInv_after_Load hmm heq ?_
            intro k hk hke hkk
            simp only [setHandle_handles, if_neg hke] at hkk
            exact EvictBlocks_HandleInv hev hi k hk hkk
          · split at heq
            · simp at heq
            · rename_i hr1
              have hfr := Load_frame heq
              have hmc : m'.current_memory = m1.current_memory := hfr.1
              have hmx : m'.maximum_memory = m1.maximum_memory := hfr.2.1
              refine ⟨fun hi => ?_, hmx.trans hevf.1, fun _ => by omega⟩
              have hmm : (setHandle m1 hid { h1 with readers := 1 }).handles hid
                  = some { h1 with readers := 1 } := by simp [setHandle]
              refine HandleInv_after_Load hmm heq ?_
              intro k hk hke hkk
              simp only [setHandle_handles, if_neg hke] at hkk
              exact EvictBlocks_HandleInv hev hi k hk hkk

theorem ReAllocate_spec {m m' : BufferManager} {hid a : Nat}
    (heq : ReAllocate m hid a = (m', some ())) :
    (HandleInv m → HandleInv m') ∧
    m'.maximum_memory = m.maximum_memory ∧
    (m.current_memory ≤ m.maximum_memory → m'.current_memory ≤ m'.maximum_memory) := by
  unfold ReAllocate at heq
  split at heq
  · simp at heq
  · split at heq
    · simp at heq
    · rename_i h hh
      split at heq
      · simp at heq
      · rename_i hr
        dsimp only at heq
        split at heq
        · rename_i hgrow
          rcases hev : EvictBlocks m (a + BLOCK_HEADER_SIZE - h.memory_usage)
              m.maximum_memory with ⟨m1, r1⟩
          rw [hev] at heq
          have hevf := EvictBlocks_frame hev
          match r1 with
          | none => simp at heq
          | some false => simp at heq
          | some true =>
            dsimp only at heq
            have hrs := ReAllocateResize_spec heq
            have hcle : m1.current_memory ≤ m.maximum_memory := EvictBlocks_true_le hev
            refine ⟨fun hi => hrs.1 (EvictBlocks_HandleInv hev hi),
              hrs.2.1.trans hevf.1, fun _ => ?_⟩
            have h1 := hrs.2.2
            have h2 := hrs.2.1.trans hevf.1
            omega
        · have hrs := ReAllocateResize_spec heq
          refine ⟨hrs.1, hrs.2.1, fun hb => ?_⟩
          have h1 := hrs.2.2
          have h2 := hrs.2.1
          omega

theorem SetLimit_spec {m m' : BufferManager} {l : Nat}
    (heq : SetLimit m l = (m', some ())) :
    (HandleInv m → HandleInv m') ∧
    m'.maximum_memory = l ∧ m'.current_memory ≤ l := by
  unfold SetLimit at heq
  rcases hev : EvictBlocks m 0 l with ⟨m1, r1⟩
  rw [hev] at heq
  match r1 with
  | none => simp at heq
  | some false => simp at heq
  | some true =>
    dsimp only at heq
    rcases hev2 : EvictBlocks { m1 with maximum_memory := l } 0 l with ⟨m3, r3⟩
    rw [hev2] at heq
    match r3 with
    | none => simp at heq
    | some false => simp at heq
    | some true =>
      dsimp only at heq
      cases heq
      have hf2 := EvictBlocks_frame hev2
      refine ⟨fun hi => ?_, by rw [hf2.1], EvictBlocks_true_le hev2⟩
      have hi1 : HandleInv { m1 with maximum_memory := l } := by
        intro k h hk
        exact EvictBlocks_HandleInv hev hi k h hk
      exact EvictBlocks_HandleInv hev2 hi1

theorem Allocate_spec {m m' : BufferManager} {a : Nat} {tok : Option FileBuffer}
    (heq : Allocate m a = (m', some tok)) :
    (HandleInv m → HandleInv m') ∧
    m'.maximum_memory = m.maximum_memory ∧
    m'.current_memory ≤ m'.maximum_memory := by
  unfold Allocate at heq
  rcases hr : RegisterMemory m a true with ⟨ma, ra⟩
  rw [hr] at heq
  cases ra with
  | none => simp at heq
  | some hid =>
    dsimp only at heq
    have hrs := RegisterMemory_spec hr
    have hps := Pin_spec heq
    refine ⟨fun hi => hps.1 (hrs.1 hi), hps.2.1.trans hrs.2.1, ?_⟩
    have hb : ma.current_memory ≤ ma.maximum_memory := by
      have := hrs.2.2
      have := hrs.2.1
      omega
    have := hps.2.2 hb
    omega

theorem run_HandleInv {op : Op} {m m' : BufferManager}
    (heq : run op m = (m', some ())) (hin : HandleInv m) : HandleInv m' := by
  cases op with
  | registerBlock id =>
    unfold run at heq
    dsimp only at heq
    rcases hr : RegisterBlock m id with ⟨ma, hida⟩
    rw [hr] at heq
    injection heq with h1 h2
    subst h1
    exact (RegisterBlock_spec hr).1 hin
  | registerMemory a c =>
    unfold run at heq
    dsimp only at heq
    rcases hr : RegisterMemory m a c with ⟨ma, ra⟩
    rw [hr] at heq
    cases ra with
    | none => simp at heq
    | some hid =>
      simp only [Option.map_some'] at heq
      injection heq with h1 h2
      subst h1
      exact (RegisterMemory_spec hr).1 hin
  | allocate a =>
    unfold run at heq
    dsimp only at heq
    rcases hr : Allocate m a with ⟨ma, ra⟩
    rw [hr] at heq
    cases ra with
    | none => simp at heq
    | some tok =>
      simp only [Option.map_some'] at heq
      injection heq with h1 h2
      subst h1
      exact (Allocate_spec hr).1 hin
  | reAllocate hid a =>
    unfold run at heq
    dsimp only at heq
    exact (ReAllocate_spec heq).1 hin
  | pin hid =>
    unfold run at heq
    dsimp only at heq
    rcases hr : Pin m hid with ⟨ma, ra⟩
    rw [hr] at heq
    cases ra with
    | none => simp at heq
    | some tok =>
      simp only [Option.map_some'] at heq
      injection heq with h1 h2
      subst h1
      exact (Pin_spec hr).1 hin
  | unpin hid =>
    unfold run at heq
    dsimp only at heq
    exact (Unpin_spec heq).1 hin
  | evictBlocks e l =>
    unfold run at heq
    dsimp only at heq
    rcases hr : EvictBlocks m e l with ⟨ma, ra⟩
    rw [hr] at heq
    cases ra with
    | none => simp at heq
    | some b =>
      simp only [Option.map_some'] at heq
      injection heq with h1 h2
      subst h1
      exact EvictBlocks_HandleInv hr hin
  | setLimit l =>
    unfold run at heq
    dsimp only at heq
    exact (SetLimit_spec heq).1 hin

theorem run_budget {op : Op} {m m' : BufferManager}
    (hok : OkOp op m) (heq : run op m = (m', some ()))
    (hb : m.current_memory ≤ m.maximum_memory) :
    m'.current_memory ≤ m'.maximum_memory := by
  cases op with
  | registerBlock id =>
    unfold run at heq
    dsimp only at heq
    rcases hr : RegisterBlock m id with ⟨ma, hida⟩
    rw [hr] at heq
    injection heq with h1 h2
    subst h1
    dsimp only
    have := (RegisterBlock_spec hr).2
    omega
  | registerMemory a c =>
    unfold run at heq
    dsimp only at heq
    rcases hr : RegisterMemory m a c with ⟨ma, ra⟩
    rw [hr] at heq
    cases ra with
    | none => simp at heq
    | some hid =>
      simp only [Option.map_some'] at heq
      injection heq with h1 h2
      subst h1
      have := (RegisterMemory_spec hr).2
      omega
  | allocate a =>
    unfold run at heq
    dsimp only at heq
    rcases hr : Allocate m a with ⟨ma, ra⟩
    rw [hr] at heq
    cases ra with
    | none => simp at heq
    | some tok =>
      simp only [Option.map_some'] at heq
      injection heq with h1 h2
      subst h1
      exact (Allocate_spec hr).2.2
  | reAllocate hid a =>
    unfold run at heq
    dsimp only at heq
    exact (ReAllocate_spec heq).2.2 hb
  | pin hid =>
    unfold run at heq
    dsimp only at heq
    rcases hr : Pin m hid with ⟨ma, ra⟩
    rw [hr] at heq
    cases ra with
    | none => simp at heq
    | some tok =>
      simp only [Option.map_some'] at heq
      injection heq with h1 h2
      subst h1
      exact (Pin_spec hr).2.2 hb
  | unpin hid =>
    unfold run at heq
    dsimp only at heq
    have := (Unpin_spec heq).2
    omega
  | evictBlocks e l =>
    unfold run at heq
    dsimp only at heq
    rcases hr : EvictBlocks m e l with ⟨ma, ra⟩
    rw [hr] at heq
    cases ra with
    | none => simp at heq
    | some b =>
      simp only [Option.map_some'] at heq
      injection heq with h1 h2
      subst h1
      have hokl : l ≤ m.maximum_memory := hok
      have hf := EvictBlocks_frame hr
      cases b with
      | true =>
        have := EvictBlocks_true_le hr
        omega
      | false =>
        have := (EvictBlocks_false_le hr).1
        omega
  | setLimit l =>
    unfold run at heq
    dsimp only at heq
    have := (SetLimit_spec heq).2
    omega

theorem Reachable_HandleInv {m0 m : BufferManager}
    (hr : Reachable m0 m) (hin : HandleInv m0) : HandleInv m := by
  induction hr with
  | refl => exact hin
  | step op hr heq ih => exact run_HandleInv heq ih

theorem ReachableOk_budget {m0 m : BufferManager}
    (hr : ReachableOk m0 m) (hb : m0.current_memory ≤ m0.maximum_memory) :
    m.current_memory ≤ m.maximum_memory := by
  induction hr with
  | refl => exact hb
  | step op hr hok heq ih => exact run_budget hok heq ih

theorem mkBufferManager_HandleInv (tmp : String) (mx : Nat) :
    HandleInv (mkBufferManager tmp mx) := by
  intro k h hk
  simp [mkBufferManager] at hk

/-! ### Little-endian header encoding -/

theorem encodeLE_length (w n : Nat) : (encodeLE w n).length = w := by
  induction w generalizing n with
  | zero => rfl
  | succ w ih => simp [encodeLE, ih]

theorem decodeLE_encodeLE {w n : Nat} (hn : n < 256 ^ w) : decodeLE (encodeLE w n) = n := by
  induction w generalizing n with
  | zero =>
    simp [encodeLE, decodeLE]
    omega
  | succ w ih =>
    have hdiv : n / 256 < 256 ^ w := by
      apply Nat.div_lt_of_lt_mul
      rw [pow_succ] at hn
      omega
    simp only [encodeLE, decodeLE]
    rw [ih hdiv]
    omega

/-! ### Claim theorems -/

/-- C10: calling `Unload` on a handle whose state is already `BLOCK_UNLOADED`
is a no-op: it does not raise, and the whole manager state (the handle's
state, buffer, readers, eviction_timestamp and the manager's current_memory
included) is unchanged. -/
theorem C10_unload_noop (m : BufferManager) (hid : Nat) (h : BlockHandle)
    (hh : m.handles hid = some h) (hs : h.state = BlockState.BLOCK_UNLOADED) :
    BlockHandle.Unload m hid = (m, some ()) := by
  unfold BlockHandle.Unload
  rw [hh]
  dsimp only
  rw [if_pos hs]

/-- C10 witness: the no-op on a concrete unloaded handle. -/
theorem C10_unload_noop_witness : BlockHandle.Unload c10m 0 = (c10m, some ()) :=
  C10_unload_noop c10m 0 c10h (by decide) (by decide)

/-- C7: `RegisterBlock` is idempotent for a block id while the handle
returned by the first call is alive (handles registered in the store stay
alive in this model): a second call returns the same handle index and leaves
the whole manager state unchanged; the registry, a map keyed by `block_id`,
holds at most one entry per id by construction. -/
theorem C7_registerBlock_idempotent (m : BufferManager) (id : Nat) :
    RegisterBlock (RegisterBlock m id).1 id = RegisterBlock m id := by
  rcases hr : RegisterBlock m id with ⟨m1, hid⟩
  have hfacts : m1.blocks id = some hid ∧ ∃ h0, m1.handles hid = some h0 := by
    unfold RegisterBlock registerFresh at hr
    split at hr
    · rename_i hid0 hlk
      split at hr
      · rename_i h0 hh0
        cases hr
        exact ⟨hlk, h0, hh0⟩
      · cases hr
        exact ⟨by simp, { readers := 0, block_id := id, buffer := none, eviction_timestamp := 0, can_destroy := false, state := BlockState.BLOCK_UNLOADED, memory_usage := BLOCK_ALLOC_SIZE }, by simp [setHandle]⟩
    · cases hr
      exact ⟨by simp, { readers := 0, block_id := id, buffer := none, eviction_timestamp := 0, can_destroy := false, state := BlockState.BLOCK_UNLOADED, memory_usage := BLOCK_ALLOC_SIZE }, by simp [setHandle]⟩
  obtain ⟨hb, h0, hh⟩ := hfacts
  simp only [RegisterBlock, hb, hh]

/-- C6: `CanUnload` returns false exactly when the handle is already
UNLOADED, or has active readers, or is an anonymous non-destroyable block
while no temporary directory is configured; consequently `EvictBlocks` never
unloads (indeed never touches) such a handle. -/
theorem C6_canUnload_characterization (m : BufferManager) (h : BlockHandle)
    (hid e l : Nat) :
    (h.CanUnload m = false ↔
      (h.state = BlockState.BLOCK_UNLOADED ∨ 0 < h.readers ∨
        (MAXIMUM_BLOCK ≤ h.block_id ∧ h.can_destroy = false ∧
          m.temp_directory = ""))) ∧
    (h.CanUnload m = false → m.handles hid = some h →
      ∀ m' r, EvictBlocks m e l = (m', r) → m'.handles hid = some h) :=
  ⟨CanUnload_eq_false_iff h m,
   fun hcu hh m' r heq => EvictBlocks_untouched heq hh hcu⟩

/-- C6 witness: a pinned handle (readers = 1) is `CanUnload = false` and
survives an `EvictBlocks` pass untouched. -/
theorem C6_canUnload_characterization_witness :
    (c6h.CanUnload c6m = false ↔
      (c6h.state = BlockState.BLOCK_UNLOADED ∨ 0 < c6h.readers ∨
        (MAXIMUM_BLOCK ≤ c6h.block_id ∧ c6h.can_destroy = false ∧
          c6m.temp_directory = ""))) ∧
    (EvictBlocks c6m 0 0).1.handles 0 = some c6h :=
  ⟨(C6_canUnload_characterization c6m c6h 0 0 0).1,
   (C6_canUnload_characterization c6m c6h 0 0 0).2 (by decide) (by decide)
     (EvictBlocks c6m 0 0).1 (EvictBlocks c6m 0 0).2 rfl⟩

/-- C5: a queue node whose captured stamp differs from the handle's current
`eviction_timestamp` at dequeue time is discarded by the eviction loop
without calling `Unload`: processing it leaves the entire state (the
handle's state, buffer and readers included) exactly as processing the rest
of the queue alone would. -/
theorem C5_stale_node_discarded (limit : Nat) (m : BufferManager)
    (node : BufferEvictionNode) (rest : List BufferEvictionNode) (h : BlockHandle)
    (hh : m.handles node.handle = some h)
    (hts : node.timestamp ≠ h.eviction_timestamp)
    (hover : limit < m.current_memory) :
    evictLoop limit (node :: rest) m = evictLoop limit rest m := by
  have hcu : node.CanUnload h m = false := by
    unfold BufferEvictionNode.CanUnload
    rw [if_pos hts]
  conv_lhs => rw [evictLoop]
  rw [if_neg (by omega), hh]
  dsimp only
  rw [if_pos hcu]

/-- C5 witness: a node carrying stamp 1 against a handle whose stamp has
advanced to 4 is skipped. -/
theorem C5_stale_node_discarded_witness :
    evictLoop 0 [{ handle := 0, timestamp := 1 }] c5m = evictLoop 0 [] c5m :=
  C5_stale_node_discarded 0 c5m { handle := 0, timestamp := 1 } [] c5h
    (by decide) (by decide) (by decide)

/-- C8: reading a temporary buffer back after writing it returns a buffer
whose size equals the written size header and whose payload equals the
written payload byte-for-byte (the spill file being the 8-byte size header
followed by the payload). -/
theorem C8_spill_roundtrip {m m' : BufferManager} {buf : FileBuffer}
    (hw : WriteTemporaryBuffer m buf = (m', some ()))
    (hlen : buf.payload.length = buf.size) (hsz : buf.size < 2 ^ 64) :
    ReadTemporaryBuffer m' buf.id =
      some { size := buf.size, payload := buf.payload, id := buf.id,
             can_destroy := false } := by
  have hflen : (encodeLE 8 buf.size ++ buf.payload).length = 8 + buf.size := by
    simp [encodeLE_length, hlen]
  have htake : (encodeLE 8 buf.size ++ buf.payload).take 8 = encodeLE 8 buf.size := by
    have h2 := List.take_left (encodeLE 8 buf.size) buf.payload
    rwa [encodeLE_length] at h2
  have hdrop : (encodeLE 8 buf.size ++ buf.payload).drop 8 = buf.payload := by
    have h2 := List.drop_left (encodeLE 8 buf.size) buf.payload
    rwa [encodeLE_length] at h2
  have hdec : decodeLE (encodeLE 8 buf.size) = buf.size := by
    apply decodeLE_encodeLE
    have h2 : (256 : Nat) ^ 8 = 2 ^ 64 := by norm_num
    omega
  unfold WriteTemporaryBuffer RequireTemporaryDirectory at hw
  by_cases htd : m.temp_directory = ""
  · simp [htd] at hw
  · simp only [htd, if_false] at hw
    split at hw
    · simp at hw
    · rename_i hbs
      cases hw
      unfold ReadTemporaryBuffer
      rw [if_neg htd]
      dsimp only
      rw [if_neg (by simp)]
      rw [if_pos (rfl : buf.id = buf.id)]
      dsimp only
      rw [hflen, htake, hdec, hdrop]
      rw [if_neg (by omega), if_neg (by omega)]
      rw [← hlen, List.take_length]

/-- C9: if `SetLimit` raises then `maximum_memory` is unchanged (the old
limit is restored when the second eviction pass fails); if it returns
normally then `maximum_memory` is the new limit and `current_memory` fits
under it.  Stated for well-formed handle stores, in which the eviction
passes cannot fail an internal assertion. -/
theorem C9_setLimit_limits (m : BufferManager) (limit : Nat) (hwf : WFhandles m) :
    ((SetLimit m limit).2 = none →
      (SetLimit m limit).1.maximum_memory = m.maximum_memory) ∧
    ((SetLimit m limit).2 = some () →
      (SetLimit m limit).1.maximum_memory = limit ∧
      (SetLimit m limit).1.current_memory ≤ limit) := by
  rcases hsl : SetLimit m limit with ⟨m', r⟩
  unfold SetLimit at hsl
  rcases hev : EvictBlocks m 0 limit with ⟨m1, r1⟩
  rw [hev] at hsl
  have hwf1 := EvictBlocks_WF hev hwf
  match r1 with
  | none => exact absurd rfl hwf1.1
  | some false =>
    dsimp only at hsl
    cases hsl
    exact ⟨fun _ => (EvictBlocks_frame hev).1, fun hc => Option.noConfusion hc⟩
  | some true =>
    dsimp only at hsl
    rcases hev2 : EvictBlocks { m1 with maximum_memory := limit } 0 limit with ⟨m3, r3⟩
    rw [hev2] at hsl
    have hwf2 : WFhandles { m1 with maximum_memory := limit } :=
      fun k h hk => hwf1.2 k h hk
    have hw3 := EvictBlocks_WF hev2 hwf2
    match r3 with
    | none => exact absurd rfl hw3.1
    | some false =>
      dsimp only at hsl
      cases hsl
      refine ⟨fun _ => ?_, fun hc => Option.noConfusion hc⟩
      exact (EvictBlocks_frame hev).1
    | some true =>
      dsimp only at hsl
      cases hsl
      refine ⟨fun hc => Option.noConfusion hc, fun _ => ⟨?_, EvictBlocks_true_le hev2⟩⟩
      exact (EvictBlocks_frame hev2).1

/-- C9 witness: on an empty manager with budget 10, `SetLimit 5` returns
normally, commits the new limit and stays under it. -/
theorem C9_setLimit_limits_witness :
    (SetLimit (mkBufferManager "" 10) 5).1.maximum_memory = 5 ∧
    (SetLimit (mkBufferManager "" 10) 5).1.current_memory ≤ 5 :=
  (C9_setLimit_limits (mkBufferManager "" 10) 5
    (fun k h hk => by simp [mkBufferManager] at hk)).2 (by rfl)

/-- C8 witness: a block-sized payload of sevens survives the spill
round-trip. -/
theorem C8_spill_roundtrip_witness :
    ReadTemporaryBuffer (WriteTemporaryBuffer c8m c8buf).1 c8buf.id =
      some { size := c8buf.size, payload := c8buf.payload, id := c8buf.id,
             can_destroy := false } :=
  C8_spill_roundtrip
    (show WriteTemporaryBuffer c8m c8buf = ((WriteTemporaryBuffer c8m c8buf).1, some ())
      from by rfl)
    (by simp [c8buf]) (by decide)

/-- C3 counterexample: `EvictBlocks(0, 0)` on a state holding one unloadable
block unloads it, then finds the queue empty and returns false — yet
`current_memory` dropped from `BLOCK_ALLOC_SIZE + 1` to 1, so it is not
unchanged. -/
theorem C3_counterexample :
    (EvictBlocks c3m 0 0).2 = some false ∧
    (EvictBlocks c3m 0 0).1.current_memory ≠ c3m.current_memory := by
  decide

/-- C3 amended: when `EvictBlocks(extra, limit)` returns false,
`current_memory` is the pre-call value minus the memory freed by the blocks
unloaded during the call — never more than the pre-call value — and the
`extra` reservation itself is fully rolled back: if no handle was unloaded
(the handle store is unchanged), `current_memory` is exactly unchanged. -/
theorem C3_amended_rollback (m m' : BufferManager) (e l : Nat)
    (heq : EvictBlocks m e l = (m', some false)) :
    m'.current_memory ≤ m.current_memory ∧
    (m'.handles = m.handles → m'.current_memory = m.current_memory) :=
  EvictBlocks_false_le heq

/-- C3 amended witness: a failing reservation of 7 bytes against an empty
queue is rolled back exactly. -/
theorem C3_amended_rollback_witness :
    (EvictBlocks c3wm 7 0).1.current_memory ≤ c3wm.current_memory ∧
    ((EvictBlocks c3wm 7 0).1.handles = c3wm.handles →
      (EvictBlocks c3wm 7 0).1.current_memory = c3wm.current_memory) :=
  C3_amended_rollback c3wm (EvictBlocks c3wm 7 0).1 7 0 rfl

/-- C4 counterexample: `Load` on an anonymous destroyable handle with no
resident buffer returns the null token and leaves the handle LOADED with no
buffer — so after this `Load` the handle does not have a buffer present
exactly when LOADED. -/
theorem C4_counterexample :
    (BlockHandle.Load c4m 0).2 = some none ∧
    (BlockHandle.Load c4m 0).1.handles 0 =
      some { c4h with state := BlockState.BLOCK_LOADED } ∧
    ({ c4h with state := BlockState.BLOCK_LOADED } : BlockHandle).buffer = none := by
  decide

/-- C4 amended: at every reachable quiescent point a handle owning a buffer
is LOADED, and a LOADED handle without a buffer can only be a destroyable
anonymous block; in particular `Load` returning the null token happens only
for a destroyable anonymous block with no resident buffer, and leaves the
handle LOADED with its (absent) buffer unchanged. -/
theorem C4_amended_buffer_iff_loaded (tmp : String) (mx : Nat) :
    (∀ m, Reachable (mkBufferManager tmp mx) m → ∀ hid h, m.handles hid = some h →
      (h.buffer.isSome → h.state = BlockState.BLOCK_LOADED) ∧
      (h.state = BlockState.BLOCK_LOADED → h.buffer = none →
        MAXIMUM_BLOCK ≤ h.block_id ∧ h.can_destroy = true)) ∧
    (∀ m m' hid h, m.handles hid = some h →
      BlockHandle.Load m hid = (m', some none) →
      ∃ h', m'.handles hid = some h' ∧ h'.state = BlockState.BLOCK_LOADED ∧
        h'.buffer = h.buffer ∧ h.state = BlockState.BLOCK_UNLOADED ∧
        MAXIMUM_BLOCK ≤ h.block_id ∧ h.can_destroy = true) := by
  constructor
  · intro m hr hid h hh
    have hin := Reachable_HandleInv hr (mkBufferManager_HandleInv tmp mx)
    exact ⟨(hin hid h hh).2.1, (hin hid h hh).2.2⟩
  · intro m m' hid h hh heq
    obtain ⟨h', hset, hst', -, -, -, -, -, -, -, htokn⟩ := Load_success hh heq
    obtain ⟨hbuf, hsu, hbid, hcd⟩ := htokn rfl
    exact ⟨h', hset, hst', hbuf, hsu, hbid, hcd⟩

/-- C4 amended witness: both parts at concrete inputs — the invariant half on
a freshly registered block of a reachable state, the null-token half on the
destroyable anonymous handle of the counterexample state. -/
theorem C4_amended_buffer_iff_loaded_witness :
    ((regH.buffer.isSome → regH.state = BlockState.BLOCK_LOADED) ∧
      (regH.state = BlockState.BLOCK_LOADED → regH.buffer = none →
        MAXIMUM_BLOCK ≤ regH.block_id ∧ regH.can_destroy = true)) ∧
    (∃ h', (BlockHandle.Load c4m 0).1.handles 0 = some h' ∧
      h'.state = BlockState.BLOCK_LOADED ∧ h'.buffer = c4h.buffer ∧
      c4h.state = BlockState.BLOCK_UNLOADED ∧
      MAXIMUM_BLOCK ≤ c4h.block_id ∧ c4h.can_destroy = true) :=
  ⟨(C4_amended_buffer_iff_loaded "" 1000000).1 regTraceM
      (Reachable.step (Op.registerBlock 1) (Reachable.refl _) rfl) 0 regH rfl,
   (C4_amended_buffer_iff_loaded "" 1000000).2 c4m (BlockHandle.Load c4m 0).1 0 c4h
      rfl rfl⟩

/-- C1 counterexample: a successful direct `EvictBlocks(extra := 20,
limit := 100)` call on a fresh manager with budget 10 returns true at once
(20 ≤ 100) and leaves `current_memory = 20 > maximum_memory = 10`, so the
budget invariant does not survive arbitrary successful `EvictBlocks` calls. -/
theorem C1_counterexample :
    (run (Op.evictBlocks 20 100) (mkBufferManager "" 10)).2 = some () ∧
    (mkBufferManager "" 10).current_memory ≤ (mkBufferManager "" 10).maximum_memory ∧
    (run (Op.evictBlocks 20 100) (mkBufferManager "" 10)).1.maximum_memory <
      (run (Op.evictBlocks 20 100) (mkBufferManager "" 10)).1.current_memory := by
  decide

/-- C1 amended: after any sequence of successful public operations starting
from a fresh manager — RegisterBlock, RegisterMemory, Allocate, ReAllocate,
Pin, Unpin, EvictBlocks, SetLimit — in which every direct `EvictBlocks(extra,
limit)` call satisfies `limit ≤ maximum_memory` at the call (as every
internal caller does), `current_memory ≤ maximum_memory` holds. -/
theorem C1_amended_budget_invariant (tmp : String) (mx : Nat) (m : BufferManager)
    (hr : ReachableOk (mkBufferManager tmp mx) m) :
    m.current_memory ≤ m.maximum_memory :=
  ReachableOk_budget hr (by simp [mkBufferManager])

/-- C1 amended witness: the budget holds after registering block 1 on a
fresh manager. -/
theorem C1_amended_budget_invariant_witness :
    (run (Op.registerBlock 1) (mkBufferManager "" 10)).1.current_memory ≤
      (run (Op.registerBlock 1) (mkBufferManager "" 10)).1.maximum_memory :=
  C1_amended_budget_invariant "" 10 (run (Op.registerBlock 1) (mkBufferManager "" 10)).1
    (ReachableOk.step (Op.registerBlock 1) (ReachableOk.refl _) trivial rfl)

/-- C2: in every state reachable by successful public operations from a
fresh manager, a handle with `readers > 0` is LOADED (so the implication is
preserved by every public operation). -/
theorem C2_readers_pos_loaded (tmp : String) (mx : Nat) (m : BufferManager)
    (hr : Reachable (mkBufferManager tmp mx) m) (hid : Nat) (h : BlockHandle)
    (hh : m.handles hid = some h) (hrd : 0 < h.readers) :
    h.state = BlockState.BLOCK_LOADED :=
  (Reachable_HandleInv hr (mkBufferManager_HandleInv tmp mx) hid h hh).1 hrd

/-- C2 witness: after registering and pinning block 1 the pinned handle is
LOADED. -/
theorem C2_readers_pos_loaded_witness : pinnedH.state = BlockState.BLOCK_LOADED :=
  C2_readers_pos_loaded "" 1000000 pinTraceM
    (Reachable.step (Op.pin 0)
      (Reachable.step (Op.registerBlock 1) (Reachable.refl _) rfl) rfl)
    0 pinnedH (by rfl) (by decide)
